import Mathlib

/-!
Shallow embedding of `tools/check_dwarf_json.py`.

The script loads a JSON file and prints a diagnostic report about the
`version`, `mod_func2pc` and `mod_func2vf` keys, ending in a diagnosis
of whether any function offset is valid.

Modelling choices:
* JSON values are the inductive `J` (JSON numbers are modelled as
  integers; the inputs of interest carry offsets that are strings or
  integers).  An object is its association list in document key order;
  parsed JSON never repeats a key, and lookups take the first match.
* Each `print` statement of the script is one abstract `Line` event, so
  the produced report is a `List Line`.
* Python operations that can raise (`in` on a non-container,
  subscripting, `.items()`, `len`) return `Except PyErr`; an uncaught
  exception makes the interpreter exit with status 1 after the lines
  already printed, which `runParsed` reproduces.
* Python `==` against the literals `"0x0"`, `0`, `"0"`, `""` is encoded
  by `isZeroLiteral` (listing check, line 45) and `inInvalidList`
  (diagnosis check, line 84); note that Python identifies `False` with
  `0`, which both encodings preserve.
-/

/-- A parsed JSON document, as produced by `json.load`. -/
inductive J where
  | null
  | bool (b : Bool)
  | num (n : Int)
  | str (s : String)
  | arr (elems : List J)
  | obj (fields : List (String × J))

mutual

/-- Decidable equality on `J` (structural, hence kernel-computable). -/
def jdecEq : (a b : J) → Decidable (a = b)
  | .null, .null => .isTrue rfl
  | .null, .bool _ => .isFalse fun h => J.noConfusion h
  | .null, .num _ => .isFalse fun h => J.noConfusion h
  | .null, .str _ => .isFalse fun h => J.noConfusion h
  | .null, .arr _ => .isFalse fun h => J.noConfusion h
  | .null, .obj _ => .isFalse fun h => J.noConfusion h
  | .bool _, .null => .isFalse fun h => J.noConfusion h
  | .bool a, .bool b =>
      match decEq a b with
      | .isTrue h => .isTrue (by rw [h])
      | .isFalse h => .isFalse fun he => h (by injection he)
  | .bool _, .num _ => .isFalse fun h => J.noConfusion h
  | .bool _, .str _ => .isFalse fun h => J.noConfusion h
  | .bool _, .arr _ => .isFalse fun h => J.noConfusion h
  | .bool _, .obj _ => .isFalse fun h => J.noConfusion h
  | .num _, .null => .isFalse fun h => J.noConfusion h
  | .num _, .bool _ => .isFalse fun h => J.noConfusion h
  | .num a, .num b =>
      match decEq a b with
      | .isTrue h => .isTrue (by rw [h])
      | .isFalse h => .isFalse fun he => h (by injection he)
  | .num _, .str _ => .isFalse fun h => J.noConfusion h
  | .num _, .arr _ => .isFalse fun h => J.noConfusion h
  | .num _, .obj _ => .isFalse fun h => J.noConfusion h
  | .str _, .null => .isFalse fun h => J.noConfusion h
  | .str _, .bool _ => .isFalse fun h => J.noConfusion h
  | .str _, .num _ => .isFalse fun h => J.noConfusion h
  | .str a, .str b =>
      match decEq a b with
      | .isTrue h => .isTrue (by rw [h])
      | .isFalse h => .isFalse fun he => h (by injection he)
  | .str _, .arr _ => .isFalse fun h => J.noConfusion h
  | .str _, .obj _ => .isFalse fun h => J.noConfusion h
  | .arr _, .null => .isFalse fun h => J.noConfusion h
  | .arr _, .bool _ => .isFalse fun h => J.noConfusion h
  | .arr _, .num _ => .isFalse fun h => J.noConfusion h
  | .arr _, .str _ => .isFalse fun h => J.noConfusion h
  | .arr xs, .arr ys =>
      match jdecEqList xs ys with
      | .isTrue h => .isTrue (by rw [h])
      | .isFalse h => .isFalse fun he => h (by injection he)
  | .arr _, .obj _ => .isFalse fun h => J.noConfusion h
  | .obj _, .null => .isFalse fun h => J.noConfusion h
  | .obj _, .bool _ => .isFalse fun h => J.noConfusion h
  | .obj _, .num _ => .isFalse fun h => J.noConfusion h
  | .obj _, .str _ => .isFalse fun h => J.noConfusion h
  | .obj _, .arr _ => .isFalse fun h => J.noConfusion h
  | .obj xs, .obj ys =>
      match jdecEqFields xs ys with
      | .isTrue h => .isTrue (by rw [h])
      | .isFalse h => .isFalse fun he => h (by injection he)

/-- Decidable equality on lists of JSON values. -/
def jdecEqList : (xs ys : List J) → Decidable (xs = ys)
  | [], [] => .isTrue rfl
  | [], _ :: _ => .isFalse fun h => List.noConfusion h
  | _ :: _, [] => .isFalse fun h => List.noConfusion h
  | x :: xs, y :: ys =>
      match jdecEq x y, jdecEqList xs ys with
      | .isTrue h1, .isTrue h2 => .isTrue (by rw [h1, h2])
      | .isFalse h1, _ => .isFalse fun he => h1 (by injection he)
      | _, .isFalse h2 => .isFalse fun he => h2 (by injection he)

/-- Decidable equality on JSON object field lists. -/
def jdecEqFields : (xs ys : List (String × J)) → Decidable (xs = ys)
  | [], [] => .isTrue rfl
  | [], _ :: _ => .isFalse fun h => List.noConfusion h
  | _ :: _, [] => .isFalse fun h => List.noConfusion h
  | (s, x) :: xs, (t, y) :: ys =>
      match decEq s t, jdecEq x y, jdecEqFields xs ys with
      | .isTrue h0, .isTrue h1, .isTrue h2 => .isTrue (by rw [h0, h1, h2])
      | .isFalse h0, _, _ => .isFalse fun he => by
          injection he with hp ht
          exact h0 (congrArg Prod.fst hp)
      | _, .isFalse h1, _ => .isFalse fun he => by
          injection he with hp ht
          exact h1 (congrArg Prod.snd hp)
      | _, _, .isFalse h2 => .isFalse fun he => h2 (by injection he)

end

instance : DecidableEq J := jdecEq

/-- Exceptions the script can raise after a successful load. -/
inductive PyErr where
  | typeError
  | attributeError
  | keyError
deriving DecidableEq

/-- One printed line of the report.  Constructors carry exactly the data
interpolated into the corresponding `print` of the script; fixed blocks
of text (the success notice at lines 89 and 90 and the failure block at
lines 92 to 105) are single events. -/
inductive Line where
  | sep
  | analysisTitle
  | fileLine (path : String)
  | blank
  | versionLine (v : J)
  | versionNotSpecified
  | pcHeader
  | moduleLine (mod : String)
  | noFunctionsFound
  | invalidEntry (name : String) (offset : J)
  | validEntry (name : String) (offset : J)
  | moreValid (extra : Nat)
  | summary (validCount zeroCount : Nat)
  | zeroWarning
  | noPcWarning
  | vfHeader
  | vfModuleLine (mod : String)
  | vfCount (n : Nat)
  | noVfWarning
  | diagnosisTitle
  | success
  | failure
  | usage
  | loadError (msg : String)
deriving DecidableEq

/-- Python truthiness of a JSON value (`if not funcs:` at line 37). -/
def pyTruthy : J → Bool
  | .null => false
  | .bool b => b
  | .num n => n != 0
  | .str s => s != ""
  | .arr xs => !xs.isEmpty
  | .obj kvs => !kvs.isEmpty

/-- Python `key in data` for a string key: key membership for a dict,
element equality for a list, substring test for a string, and a
`TypeError` otherwise. -/
def pyInKey (key : String) : J → Except PyErr Bool
  | .obj kvs => .ok (kvs.any fun p => p.fst == key)
  | .arr xs => .ok (xs.any fun x => match x with | .str s => s == key | _ => false)
  | .str s => .ok (decide ((s.splitOn key).length > 1))
  | _ => .error .typeError

/-- Python `data[key]` for a string key: dict lookup (`KeyError` when
absent), `TypeError` on any non-dict. -/
def pyGet (key : String) : J → Except PyErr J
  | .obj kvs =>
      match kvs.find? (fun p => p.fst == key) with
      | some p => .ok p.snd
      | none => .error .keyError
  | _ => .error .typeError

/-- Python `x.items()`: the field list of a dict, `AttributeError`
otherwise. -/
def pyItems : J → Except PyErr (List (String × J))
  | .obj kvs => .ok kvs
  | _ => .error .attributeError

/-- Python `len(x)`: defined on dicts, lists and strings, `TypeError`
otherwise. -/
def pyLen : J → Except PyErr Nat
  | .obj kvs => .ok kvs.length
  | .arr xs => .ok xs.length
  | .str s => .ok s.length
  | _ => .error .typeError

/-- Line 45: `offset == "0x0" or offset == 0 or offset == "0"` under
Python equality (which identifies `False` with `0`). -/
def isZeroLiteral : J → Bool
  | .str s => s == "0x0" || s == "0"
  | .num n => n == 0
  | .bool b => !b
  | _ => false

/-- Line 84: `offset in ["0x0", 0, "0", ""]` under Python equality. -/
def inInvalidList : J → Bool
  | .str s => s == "0x0" || s == "0" || s == ""
  | .num n => n == 0
  | .bool b => !b
  | _ => false

/-- Sequencing of two report fragments: if the first ended in an
uncaught exception the second never runs. -/
def pseq (a b : List Line × Option PyErr) : List Line × Option PyErr :=
  match a.snd with
  | some _ => a
  | none => (a.fst ++ b.fst, b.snd)

/-- Lines 41 to 51: the per-function classification loop.  Arguments
are the pending functions and the current `zero_count` and
`valid_count`; the result is the printed lines and the final
`valid_count` and `zero_count`.  A valid entry is printed only while
the incremented `valid_count` is at most 5. -/
def offsetLoop : List (String × J) → Nat → Nat → List Line × Nat × Nat
  | [], zc, vc => ([], vc, zc)
  | (name, off) :: rest, zc, vc =>
      if isZeroLiteral off then
        let r := offsetLoop rest (zc + 1) vc
        (Line.invalidEntry name off :: r.fst, r.snd)
      else
        let r := offsetLoop rest zc (vc + 1)
        if vc + 1 ≤ 5 then (Line.validEntry name off :: r.fst, r.snd)
        else r

/-- Lines 36 to 59: the report for one module of `mod_func2pc`. -/
def pcOneModule (mod_path : String) (funcs : J) : List Line × Option PyErr :=
  if pyTruthy funcs = false then
    ([Line.moduleLine mod_path, Line.noFunctionsFound], none)
  else
    match pyItems funcs with
    | .error e => ([Line.moduleLine mod_path], some e)
    | .ok fs =>
        let r := offsetLoop fs 0 0
        (Line.moduleLine mod_path :: r.fst
          ++ (if 5 < r.snd.fst then [Line.moreValid (r.snd.fst - 5)] else [])
          ++ [Line.summary r.snd.fst r.snd.snd]
          ++ (if 0 < r.snd.snd then [Line.zeroWarning] else []), none)

/-- Line 35: the loop over the modules of `mod_func2pc`. -/
def pcModules : List (String × J) → List Line × Option PyErr
  | [] => ([], none)
  | (mod, funcs) :: rest => pseq (pcOneModule mod funcs) (pcModules rest)

/-- Lines 19 to 23: the report header. -/
def headerLines (path : String) : List Line :=
  [Line.sep, Line.analysisTitle, Line.sep, Line.fileLine path, Line.blank]

/-- Lines 25 to 30: the version section. -/
def versionSection (data : J) : List Line × Option PyErr :=
  match pyInKey "version" data with
  | .error e => ([], some e)
  | .ok true =>
      match pyGet "version" data with
      | .error e => ([], some e)
      | .ok v => ([Line.versionLine v, Line.blank], none)
  | .ok false => ([Line.versionNotSpecified, Line.blank], none)

/-- Lines 32 to 61: the function-offset section. -/
def pcSection (data : J) : List Line × Option PyErr :=
  match pyInKey "mod_func2pc" data with
  | .error e => ([], some e)
  | .ok true =>
      match pyGet "mod_func2pc" data with
      | .error e => ([Line.pcHeader], some e)
      | .ok v =>
          match pyItems v with
          | .error e => ([Line.pcHeader], some e)
          | .ok mods => pseq ([Line.pcHeader], none) (pcModules mods)
  | .ok false => ([Line.noPcWarning], none)

/-- Lines 68 to 70: the loop over the modules of `mod_func2vf`. -/
def vfModules : List (String × J) → List Line × Option PyErr
  | [] => ([], none)
  | (mod, funcs) :: rest =>
      match pyLen funcs with
      | .error e => ([Line.vfModuleLine mod], some e)
      | .ok n => pseq ([Line.vfModuleLine mod, Line.vfCount n], none) (vfModules rest)

/-- Lines 65 to 72: the variable-field section. -/
def vfSection (data : J) : List Line × Option PyErr :=
  match pyInKey "mod_func2vf" data with
  | .error e => ([], some e)
  | .ok true =>
      match pyGet "mod_func2vf" data with
      | .error e => ([Line.vfHeader], some e)
      | .ok v =>
          match pyItems v with
          | .error e => ([Line.vfHeader], some e)
          | .ok mods => pseq ([Line.vfHeader], none) (vfModules mods)
  | .ok false => ([Line.noVfWarning], none)

/-- Lines 82 to 86, inner part: scan the module list for a function
whose offset is outside the invalid list.  The `break` of the source
leaves only the inner loop, so every module is still visited and a
non-dict value raises even after a valid offset was found. -/
def diagScan : List (String × J) → Bool → Except PyErr Bool
  | [], acc => .ok acc
  | (_, funcs) :: rest, acc =>
      match pyItems funcs with
      | .error e => .error e
      | .ok fs => diagScan rest (acc || fs.any fun p => !inInvalidList p.snd)

/-- Lines 80 to 86: the recomputation of `has_valid_offsets`. -/
def hasValidOffsets (data : J) : Except PyErr Bool :=
  match pyInKey "mod_func2pc" data with
  | .error e => .error e
  | .ok false => .ok false
  | .ok true =>
      match pyGet "mod_func2pc" data with
      | .error e => .error e
      | .ok v =>
          match pyItems v with
          | .error e => .error e
          | .ok mods => diagScan mods false

/-- Lines 74 to 107: the diagnosis section, including the final blank
line of the script. -/
def diagSection (data : J) : List Line × Option PyErr :=
  match hasValidOffsets data with
  | .error e => ([Line.blank, Line.sep, Line.diagnosisTitle, Line.sep], some e)
  | .ok true =>
      ([Line.blank, Line.sep, Line.diagnosisTitle, Line.sep,
        Line.success, Line.blank], none)
  | .ok false =>
      ([Line.blank, Line.sep, Line.diagnosisTitle, Line.sep,
        Line.failure, Line.blank], none)

/-- Lines 19 to 107: everything the script prints after a successful
load, together with the exception that aborted it, if any. -/
def reportOutput (path : String) (data : J) : List Line × Option PyErr :=
  pseq (headerLines path, none) <|
  pseq (versionSection data) <|
  pseq (pcSection data) <|
  pseq ([Line.blank], none) <|
  pseq (vfSection data) <|
  diagSection data

/-- The whole run on an already parsed document: the printed lines and
the process exit status (an uncaught exception exits with status 1). -/
def runParsed (path : String) (data : J) : List Line × Nat :=
  match reportOutput path data with
  | (ls, some _) => (ls, 1)
  | (ls, none) => (ls, 0)

/-- Outcome of opening and parsing the input file. -/
inductive LoadResult where
  | ok (data : J)
  | err (msg : String)

/-- Lines 6 to 17 then the report: the script run on the argument list
`sys.argv[1:]`, with the load step abstracted as a function from the
path to a `LoadResult`. -/
def script (args : List String) (load : String → LoadResult) : List Line × Nat :=
  match args with
  | [] => ([Line.usage], 1)
  | path :: _ =>
      match load path with
      | .err msg => ([Line.loadError msg], 1)
      | .ok data => runParsed path data

/-- A value on which Python `len` is defined. -/
def pySized : J → Bool
  | .obj _ => true
  | .arr _ => true
  | .str _ => true
  | _ => false

/-- Every value of a JSON object is itself an object. -/
def objValuesAreObjs : J → Bool
  | .obj mods => mods.all fun p => match p.snd with | .obj _ => true | _ => false
  | _ => false

/-- Every value of a JSON object is a sized value. -/
def objValuesSized : J → Bool
  | .obj mods => mods.all fun p => pySized p.snd
  | _ => false

/-- First-match lookup in an object field list. -/
def findVal (key : String) (kvs : List (String × J)) : Option J :=
  (kvs.find? fun p => p.fst == key).map Prod.snd

/-- Check an optional value, treating absence as success. -/
def optAll (p : J → Bool) : Option J → Bool
  | none => true
  | some v => p v

/-- A well-formed report document in the sense of the data model of the
specification: a string-keyed mapping whose `mod_func2pc` entry, when
present, is a mapping of mappings, and whose `mod_func2vf` entry, when
present, is a mapping of sized values.  On such documents the script
raises no exception. -/
def wfDoc : J → Bool
  | .obj kvs =>
      optAll objValuesAreObjs (findVal "mod_func2pc" kvs)
      && optAll objValuesSized (findVal "mod_func2vf" kvs)
  | _ => false

/-- The document whose only content is one `mod_func2pc` module. -/
def singleModuleDoc (mod : String) (funcs : List (String × J)) : J :=
  J.obj [("mod_func2pc", J.obj [(mod, J.obj funcs)])]

/-- Recognizer for the valid-entry lines of the classification loop. -/
def isValidLine : Line → Bool
  | .validEntry _ _ => true
  | _ => false

/-- A nonempty string of zero digits, or such a string prefixed with
the hexadecimal marker: a string literal that denotes the number zero. -/
def denotesNumericZero (s : String) : Bool :=
  match s.data with
  | '0' :: 'x' :: rest => !rest.isEmpty && rest.all (· == '0')
  | l => !l.isEmpty && l.all (· == '0')

/-- Lines that decide the final verdict of the report. -/
def diagVerdict : Line → Bool
  | .success => true
  | .failure => true
  | _ => false

lemma pseq_of_none {a b : List Line × Option PyErr} (h : a.snd = none) :
    pseq a b = (a.fst ++ b.fst, b.snd) := by
  unfold pseq
  rw [h]

lemma pseq_snd_none {a b : List Line × Option PyErr} :
    (pseq a b).snd = none ↔ a.snd = none ∧ b.snd = none := by
  unfold pseq
  cases h : a.snd <;> simp [h]

lemma mem_pseq {x : Line} {a b : List Line × Option PyErr} :
    x ∈ (pseq a b).fst ↔ x ∈ a.fst ∨ (a.snd = none ∧ x ∈ b.fst) := by
  unfold pseq
  cases h : a.snd <;> simp [h]

lemma wfDoc_obj {data : J} (h : wfDoc data = true) : ∃ kvs, data = J.obj kvs := by
  cases data <;> simp_all [wfDoc]

lemma offsetLoop_counts (fs : List (String × J)) : ∀ zc vc : Nat,
    (offsetLoop fs zc vc).snd =
      (vc + fs.countP (fun p => !isZeroLiteral p.snd),
       zc + fs.countP (fun p => isZeroLiteral p.snd)) := by
  induction fs with
  | nil => intro zc vc; simp [offsetLoop]
  | cons hd tl ih =>
      intro zc vc
      obtain ⟨name, off⟩ := hd
      by_cases hz : isZeroLiteral off = true
      · simp only [offsetLoop, hz, if_pos]
        rw [ih]
        rw [List.countP_cons_of_neg _ _ (by simp [hz]), List.countP_cons_of_pos _ _ (by simp [hz])]
        simp only [Prod.mk.injEq, true_and, and_true]
        omega
      · simp only [offsetLoop, hz, Bool.false_eq_true, if_false]
        rw [List.countP_cons_of_pos _ _ (by simp [hz]), List.countP_cons_of_neg _ _ (by simp [hz])]
        by_cases h5 : vc + 1 ≤ 5
        · rw [if_pos h5]
          rw [ih]
          simp only [Prod.mk.injEq, true_and, and_true]
          omega
        · rw [if_neg h5]
          rw [ih]
          simp only [Prod.mk.injEq, true_and, and_true]
          omega

lemma offsetLoop_mem (fs : List (String × J)) : ∀ zc vc : Nat, ∀ l : Line,
    l ∈ (offsetLoop fs zc vc).fst →
    (∃ n o, l = Line.invalidEntry n o ∧ (n, o) ∈ fs ∧ isZeroLiteral o = true) ∨
    (∃ n o, l = Line.validEntry n o ∧ (n, o) ∈ fs ∧ isZeroLiteral o = false) := by
  induction fs with
  | nil => intro zc vc l h; simp [offsetLoop] at h
  | cons hd tl ih =>
      intro zc vc l h
      obtain ⟨name, off⟩ := hd
      by_cases hz : isZeroLiteral off = true
      · simp only [offsetLoop, hz, if_pos, List.mem_cons] at h
        rcases h with h | h
        · exact Or.inl ⟨name, off, h, by simp, hz⟩
        · rcases ih _ _ _ h with ⟨n, o, he, hm, ho⟩ | ⟨n, o, he, hm, ho⟩
          · exact Or.inl ⟨n, o, he, List.mem_cons_of_mem _ hm, ho⟩
          · exact Or.inr ⟨n, o, he, List.mem_cons_of_mem _ hm, ho⟩
      · simp only [offsetLoop, hz, Bool.false_eq_true, if_false] at h
        have step : l = Line.validEntry name off ∨ l ∈ (offsetLoop tl zc (vc + 1)).fst := by
          by_cases h5 : vc + 1 ≤ 5
          · rw [if_pos h5] at h
            exact List.mem_cons.mp h
          · rw [if_neg h5] at h
            exact Or.inr h
        rcases step with h | h
        · exact Or.inr ⟨name, off, h, by simp, by simpa using hz⟩
        · rcases ih _ _ _ h with ⟨n, o, he, hm, ho⟩ | ⟨n, o, he, hm, ho⟩
          · exact Or.inl ⟨n, o, he, List.mem_cons_of_mem _ hm, ho⟩
          · exact Or.inr ⟨n, o, he, List.mem_cons_of_mem _ hm, ho⟩

lemma offsetLoop_invalid_mem (fs : List (String × J)) : ∀ zc vc : Nat, ∀ n : String, ∀ o : J,
    (n, o) ∈ fs → isZeroLiteral o = true →
    Line.invalidEntry n o ∈ (offsetLoop fs zc vc).fst := by
  induction fs with
  | nil => intro zc vc n o hm; simp at hm
  | cons hd tl ih =>
      intro zc vc n o hm ho
      obtain ⟨name, off⟩ := hd
      rcases List.mem_cons.mp hm with h | h
      · rw [Prod.mk.injEq] at h
        obtain ⟨h1, h2⟩ := h
        subst h1; subst h2
        simp [offsetLoop, ho]
      · by_cases hz : isZeroLiteral off = true
        · simp only [offsetLoop, hz, if_pos, List.mem_cons]
          exact Or.inr (ih _ _ _ _ h ho)
        · simp only [offsetLoop, hz, Bool.false_eq_true, if_false]
          by_cases h5 : vc + 1 ≤ 5
          · rw [if_pos h5]
            exact List.mem_cons_of_mem _ (ih _ _ _ _ h ho)
          · rw [if_neg h5]
            exact ih _ _ _ _ h ho

lemma offsetLoop_filter_valid (fs : List (String × J)) : ∀ zc vc : Nat,
    (offsetLoop fs zc vc).fst.filter isValidLine =
      ((fs.filter fun p => !isZeroLiteral p.snd).take (5 - vc)).map
        fun p => Line.validEntry p.fst p.snd := by
  induction fs with
  | nil => intro zc vc; simp [offsetLoop]
  | cons hd tl ih =>
      intro zc vc
      obtain ⟨name, off⟩ := hd
      by_cases hz : isZeroLiteral off = true
      · simp only [offsetLoop, hz, if_pos]
        rw [List.filter_cons_of_neg (by simp [isValidLine])]
        rw [List.filter_cons_of_neg (p := fun q : String × J => !isZeroLiteral q.snd) (by simp [hz])]
        exact ih _ _
      · simp only [offsetLoop, hz, Bool.false_eq_true, if_false]
        rw [List.filter_cons_of_pos (p := fun q : String × J => !isZeroLiteral q.snd) (by simp [hz])]
        by_cases h5 : vc + 1 ≤ 5
        · rw [if_pos h5]
          rw [List.filter_cons_of_pos (by simp [isValidLine])]
          have htake : 5 - vc = (5 - (vc + 1)) + 1 := by omega
          rw [htake, List.take_succ_cons, List.map_cons]
          rw [ih _ _]
        · rw [if_neg h5]
          have htake : 5 - vc = 0 := by omega
          have htake2 : 5 - (vc + 1) = 0 := by omega
          rw [htake, List.take_zero, List.map_nil]
          rw [ih _ _, htake2, List.take_zero, List.map_nil]

lemma mem_ite_singleton {c : Prop} [Decidable c] {l a : Line}
    (h : l ∈ (if c then [a] else [])) : l = a := by
  split at h <;> simp_all

lemma pcOneModule_obj_snd (mod : String) (fs : List (String × J)) :
    (pcOneModule mod (J.obj fs)).snd = none := by
  unfold pcOneModule
  by_cases ht : pyTruthy (J.obj fs) = false
  · rw [if_pos ht]
  · rw [if_neg ht]
    simp [pyItems]

lemma pcOneModule_ne (mod : String) (fs : List (String × J)) (h : fs ≠ []) :
    pcOneModule mod (J.obj fs) =
      (Line.moduleLine mod :: (offsetLoop fs 0 0).fst
        ++ (if 5 < (offsetLoop fs 0 0).snd.fst
            then [Line.moreValid ((offsetLoop fs 0 0).snd.fst - 5)] else [])
        ++ [Line.summary (offsetLoop fs 0 0).snd.fst (offsetLoop fs 0 0).snd.snd]
        ++ (if 0 < (offsetLoop fs 0 0).snd.snd then [Line.zeroWarning] else []), none) := by
  unfold pcOneModule
  have ht : ¬pyTruthy (J.obj fs) = false := by
    cases fs with
    | nil => exact absurd rfl h
    | cons a l => simp [pyTruthy]
  rw [if_neg ht]
  simp [pyItems]

lemma pcModules_snd (mods : List (String × J))
    (h : ∀ p ∈ mods, ∃ fs, p.snd = J.obj fs) : (pcModules mods).snd = none := by
  induction mods with
  | nil => simp [pcModules]
  | cons hd tl ih =>
      obtain ⟨mod, funcs⟩ := hd
      obtain ⟨fs, hfs⟩ := h _ (List.mem_cons_self _ _)
      simp only at hfs
      subst hfs
      rw [pcModules, pseq_snd_none]
      exact ⟨pcOneModule_obj_snd mod fs, ih fun p hp => h p (List.mem_cons_of_mem _ hp)⟩

lemma pcModules_mem (mods : List (String × J)) (x : Line)
    (h : ∀ p ∈ mods, ∃ fs, p.snd = J.obj fs) :
    (x ∈ (pcModules mods).fst ↔ ∃ p ∈ mods, x ∈ (pcOneModule p.fst p.snd).fst) := by
  induction mods with
  | nil => simp [pcModules]
  | cons hd tl ih =>
      obtain ⟨mod, funcs⟩ := hd
      obtain ⟨fs, hfs⟩ := h _ (List.mem_cons_self _ _)
      simp only at hfs
      subst hfs
      rw [pcModules, mem_pseq]
      rw [ih fun p hp => h p (List.mem_cons_of_mem _ hp)]
      simp [pcOneModule_obj_snd]

lemma offsetLoop_no_verdict (fs : List (String × J)) (zc vc : Nat) (l : Line)
    (h : l ∈ (offsetLoop fs zc vc).fst) : diagVerdict l = false := by
  rcases offsetLoop_mem fs zc vc l h with ⟨n, o, he, _, _⟩ | ⟨n, o, he, _, _⟩ <;>
    subst he <;> rfl

lemma pcOneModule_no_verdict (mod : String) (funcs : J) (l : Line)
    (h : l ∈ (pcOneModule mod funcs).fst) : diagVerdict l = false := by
  unfold pcOneModule at h
  by_cases ht : pyTruthy funcs = false
  · rw [if_pos ht] at h
    rcases List.mem_cons.mp h with he | he
    · subst he; rfl
    · simp at he; subst he; rfl
  · rw [if_neg ht] at h
    cases hi : pyItems funcs with
    | error e =>
        rw [hi] at h
        simp at h
        subst h; rfl
    | ok fs =>
        rw [hi] at h
        rcases List.mem_cons.mp h with he | he
        · subst he; rfl
        rcases List.mem_append.mp he with he | he
        swap
        · rw [mem_ite_singleton he]; rfl
        rcases List.mem_append.mp he with he | he
        swap
        · simp at he; subst he; rfl
        rcases List.mem_append.mp he with he | he
        · exact offsetLoop_no_verdict _ _ _ _ he
        · rw [mem_ite_singleton he]; rfl

lemma pcModules_no_verdict (mods : List (String × J)) (l : Line)
    (h : l ∈ (pcModules mods).fst) : diagVerdict l = false := by
  induction mods with
  | nil => simp [pcModules] at h
  | cons hd tl ih =>
      rw [pcModules, mem_pseq] at h
      rcases h with h | ⟨_, h⟩
      · exact pcOneModule_no_verdict _ _ _ h
      · exact ih h

lemma versionSection_no_verdict (data : J) (l : Line)
    (h : l ∈ (versionSection data).fst) : diagVerdict l = false := by
  unfold versionSection at h
  cases hk : pyInKey "version" data with
  | error e => rw [hk] at h; simp at h
  | ok b =>
      rw [hk] at h
      cases b
      · simp at h
        rcases h with he | he <;> subst he <;> rfl
      · cases hg : pyGet "version" data with
        | error e => rw [hg] at h; simp at h
        | ok v =>
            rw [hg] at h
            simp at h
            rcases h with he | he <;> subst he <;> rfl

lemma pcSection_no_verdict (data : J) (l : Line)
    (h : l ∈ (pcSection data).fst) : diagVerdict l = false := by
  cases hk : pyInKey "mod_func2pc" data with
  | error e => simp only [pcSection, hk] at h; simp at h
  | ok b =>
      cases b
      · simp only [pcSection, hk] at h
        simp at h; subst h; rfl
      · cases hg : pyGet "mod_func2pc" data with
        | error e =>
            simp only [pcSection, hk, hg] at h
            simp at h; subst h; rfl
        | ok v =>
            cases hi : pyItems v with
            | error e =>
                simp only [pcSection, hk, hg, hi] at h
                simp at h; subst h; rfl
            | ok mods =>
                simp only [pcSection, hk, hg, hi] at h
                rw [mem_pseq] at h
                rcases h with he | ⟨_, he⟩
                · simp at he; subst he; rfl
                · exact pcModules_no_verdict _ _ he

lemma vfModules_no_verdict (mods : List (String × J)) (l : Line)
    (h : l ∈ (vfModules mods).fst) : diagVerdict l = false := by
  induction mods with
  | nil => simp [vfModules] at h
  | cons hd tl ih =>
      obtain ⟨mod, funcs⟩ := hd
      rw [vfModules] at h
      cases hl : pyLen funcs with
      | error e =>
          rw [hl] at h
          simp at h
          subst h; rfl
      | ok n =>
          rw [hl] at h
          rw [mem_pseq] at h
          rcases h with he | ⟨_, he⟩
          · simp at he
            rcases he with he | he <;> subst he <;> rfl
          · exact ih he

lemma vfSection_no_verdict (data : J) (l : Line)
    (h : l ∈ (vfSection data).fst) : diagVerdict l = false := by
  cases hk : pyInKey "mod_func2vf" data with
  | error e => simp only [vfSection, hk] at h; simp at h
  | ok b =>
      cases b
      · simp only [vfSection, hk] at h
        simp at h; subst h; rfl
      · cases hg : pyGet "mod_func2vf" data with
        | error e =>
            simp only [vfSection, hk, hg] at h
            simp at h; subst h; rfl
        | ok v =>
            cases hi : pyItems v with
            | error e =>
                simp only [vfSection, hk, hg, hi] at h
                simp at h; subst h; rfl
            | ok mods =>
                simp only [vfSection, hk, hg, hi] at h
                rw [mem_pseq] at h
                rcases h with he | ⟨_, he⟩
                · simp at he; subst he; rfl
                · exact vfModules_no_verdict _ _ he

lemma anyKey_find {kvs : List (String × J)} {key : String}
    (h : (kvs.any fun p => p.fst == key) = true) :
    ∃ p, kvs.find? (fun p => p.fst == key) = some p := by
  cases hf : kvs.find? (fun p => p.fst == key) with
  | some p => exact ⟨p, rfl⟩
  | none =>
      obtain ⟨p, hp, hpk⟩ := List.any_eq_true.mp h
      exact absurd hpk (by simpa using List.find?_eq_none.mp hf p hp)

lemma findKey_any {kvs : List (String × J)} {key : String} {p : String × J}
    (h : kvs.find? (fun p => p.fst == key) = some p) :
    (kvs.any fun p => p.fst == key) = true := by
  rcases List.any_eq_true.mpr ⟨p, List.mem_of_find?_eq_some h, List.find?_some h⟩ with h2
  exact h2

lemma versionSection_obj_snd (kvs : List (String × J)) :
    (versionSection (J.obj kvs)).snd = none := by
  cases hk : (kvs.any fun p => p.fst == "version") with
  | false =>
      simp only [versionSection, pyInKey, hk]
  | true =>
      obtain ⟨p, hp⟩ := anyKey_find hk
      simp only [versionSection, pyInKey, pyGet, hk, hp]

lemma objValuesAreObjs_elim {v : J} (h : objValuesAreObjs v = true) :
    ∃ mods, v = J.obj mods ∧ ∀ p ∈ mods, ∃ fs, p.snd = J.obj fs := by
  cases v with
  | obj mods =>
      refine ⟨mods, rfl, fun p hp => ?_⟩
      have h2 : (mods.all fun p => match p.snd with | J.obj _ => true | _ => false) = true := h
      have h3 : (match p.snd with | J.obj _ => true | _ => false) = true :=
        List.all_eq_true.mp h2 p hp
      cases hps : p.snd with
      | obj fields => exact ⟨fields, rfl⟩
      | null => rw [hps] at h3; simp at h3
      | bool b => rw [hps] at h3; simp at h3
      | num n => rw [hps] at h3; simp at h3
      | str s => rw [hps] at h3; simp at h3
      | arr xs => rw [hps] at h3; simp at h3
  | null => simp [objValuesAreObjs] at h
  | bool b => simp [objValuesAreObjs] at h
  | num n => simp [objValuesAreObjs] at h
  | str s => simp [objValuesAreObjs] at h
  | arr xs => simp [objValuesAreObjs] at h

lemma objValuesSized_elim {v : J} (h : objValuesSized v = true) :
    ∃ mods, v = J.obj mods ∧ ∀ p ∈ mods, pySized p.snd = true := by
  cases v with
  | obj mods =>
      refine ⟨mods, rfl, fun p hp => ?_⟩
      have h2 : (mods.all fun p => pySized p.snd) = true := h
      exact List.all_eq_true.mp h2 p hp
  | null => simp [objValuesSized] at h
  | bool b => simp [objValuesSized] at h
  | num n => simp [objValuesSized] at h
  | str s => simp [objValuesSized] at h
  | arr xs => simp [objValuesSized] at h

lemma wfDoc_pc {kvs : List (String × J)} (h : wfDoc (J.obj kvs) = true) :
    ∀ p, kvs.find? (fun p => p.fst == "mod_func2pc") = some p →
      ∃ mods, p.snd = J.obj mods ∧ ∀ q ∈ mods, ∃ fs, q.snd = J.obj fs := by
  intro p hp
  have hfv : findVal "mod_func2pc" kvs = some p.snd := by simp [findVal, hp]
  have h1 : optAll objValuesAreObjs (findVal "mod_func2pc" kvs) = true :=
    ((Bool.and_eq_true _ _).mp h).left
  rw [hfv] at h1
  simp only [optAll] at h1
  exact objValuesAreObjs_elim h1

lemma wfDoc_vf {kvs : List (String × J)} (h : wfDoc (J.obj kvs) = true) :
    ∀ p, kvs.find? (fun p => p.fst == "mod_func2vf") = some p →
      ∃ mods, p.snd = J.obj mods ∧ ∀ q ∈ mods, pySized q.snd = true := by
  intro p hp
  have hfv : findVal "mod_func2vf" kvs = some p.snd := by simp [findVal, hp]
  have h1 : optAll objValuesSized (findVal "mod_func2vf" kvs) = true :=
    ((Bool.and_eq_true _ _).mp h).right
  rw [hfv] at h1
  simp only [optAll] at h1
  exact objValuesSized_elim h1

lemma pcSection_snd {kvs : List (String × J)} (h : wfDoc (J.obj kvs) = true) :
    (pcSection (J.obj kvs)).snd = none := by
  cases hk : (kvs.any fun p => p.fst == "mod_func2pc") with
  | false =>
      simp only [pcSection, pyInKey, hk]
  | true =>
      obtain ⟨p, hp⟩ := anyKey_find hk
      obtain ⟨mods, hm, hall⟩ := wfDoc_pc h p hp
      simp only [pcSection, pyInKey, pyGet, hk, hp, hm, pyItems]
      rw [pseq_snd_none]
      exact ⟨rfl, pcModules_snd mods hall⟩

lemma pySized_len {v : J} (h : pySized v = true) : ∃ n, pyLen v = .ok n := by
  cases v <;> simp_all [pySized, pyLen]

lemma vfModules_snd (mods : List (String × J))
    (h : ∀ p ∈ mods, pySized p.snd = true) : (vfModules mods).snd = none := by
  induction mods with
  | nil => simp [vfModules]
  | cons hd tl ih =>
      obtain ⟨mod, funcs⟩ := hd
      obtain ⟨n, hn⟩ := pySized_len (h _ (List.mem_cons_self _ _))
      rw [vfModules]
      simp only at hn
      rw [hn, pseq_snd_none]
      exact ⟨rfl, ih fun p hp => h p (List.mem_cons_of_mem _ hp)⟩

lemma vfSection_snd {kvs : List (String × J)} (h : wfDoc (J.obj kvs) = true) :
    (vfSection (J.obj kvs)).snd = none := by
  cases hk : (kvs.any fun p => p.fst == "mod_func2vf") with
  | false =>
      simp only [vfSection, pyInKey, hk]
  | true =>
      obtain ⟨p, hp⟩ := anyKey_find hk
      obtain ⟨mods, hm, hall⟩ := wfDoc_vf h p hp
      simp only [vfSection, pyInKey, pyGet, hk, hp, hm, pyItems]
      rw [pseq_snd_none]
      exact ⟨rfl, vfModules_snd mods hall⟩

lemma diagScan_eq (mods : List (String × J))
    (h : ∀ p ∈ mods, ∃ fs, p.snd = J.obj fs) : ∀ acc : Bool,
    diagScan mods acc = .ok (acc || mods.any fun p =>
      match p.snd with
      | .obj fs => fs.any fun q => !inInvalidList q.snd
      | _ => false) := by
  induction mods with
  | nil => intro acc; simp [diagScan]
  | cons hd tl ih =>
      intro acc
      obtain ⟨mod, funcs⟩ := hd
      obtain ⟨fs, hfs⟩ := h _ (List.mem_cons_self _ _)
      simp only at hfs
      subst hfs
      rw [diagScan]
      simp only [pyItems]
      rw [ih fun p hp => h p (List.mem_cons_of_mem _ hp)]
      simp [Bool.or_assoc]

lemma hasValidOffsets_wf {kvs : List (String × J)} (h : wfDoc (J.obj kvs) = true) :
    ∃ b, hasValidOffsets (J.obj kvs) = .ok b := by
  cases hk : (kvs.any fun p => p.fst == "mod_func2pc") with
  | false =>
      exact ⟨false, by simp only [hasValidOffsets, pyInKey, hk]⟩
  | true =>
      obtain ⟨p, hp⟩ := anyKey_find hk
      obtain ⟨mods, hm, hall⟩ := wfDoc_pc h p hp
      refine ⟨false || mods.any fun p =>
        match p.snd with
        | J.obj fs => fs.any fun q => !inInvalidList q.snd
        | _ => false, ?_⟩
      simp only [hasValidOffsets, pyInKey, pyGet, hk, hp, hm, pyItems]
      rw [diagScan_eq mods hall false]

lemma diagSection_snd {data : J} {b : Bool} (h : hasValidOffsets data = .ok b) :
    (diagSection data).snd = none := by
  cases b <;> simp [diagSection, h]

lemma mem_diag_success (data : J) :
    Line.success ∈ (diagSection data).fst ↔ hasValidOffsets data = .ok true := by
  unfold diagSection
  cases h : hasValidOffsets data with
  | error e => simp
  | ok b => cases b <;> simp

lemma mem_diag_failure (data : J) :
    Line.failure ∈ (diagSection data).fst ↔ hasValidOffsets data = .ok false := by
  unfold diagSection
  cases h : hasValidOffsets data with
  | error e => simp
  | ok b => cases b <;> simp

lemma mem_diag_title (data : J) : Line.diagnosisTitle ∈ (diagSection data).fst := by
  unfold diagSection
  cases h : hasValidOffsets data with
  | error e => simp
  | ok b => cases b <;> simp

lemma reportOutput_wf {data : J} (h : wfDoc data = true) (path : String) :
    reportOutput path data =
      (headerLines path ++ (versionSection data).fst ++ (pcSection data).fst
        ++ [Line.blank] ++ (vfSection data).fst ++ (diagSection data).fst, none) := by
  obtain ⟨kvs, rfl⟩ := wfDoc_obj h
  obtain ⟨b, hb⟩ := hasValidOffsets_wf h
  unfold reportOutput
  rw [pseq_of_none (versionSection_obj_snd kvs), pseq_of_none (pcSection_snd h)]
  rw [pseq_of_none (a := ([Line.blank], none)) rfl]
  rw [pseq_of_none (vfSection_snd h)]
  rw [pseq_of_none (a := (headerLines path, none)) rfl]
  rw [diagSection_snd hb]
  simp

lemma runParsed_wf {data : J} (h : wfDoc data = true) (path : String) :
    runParsed path data =
      (headerLines path ++ (versionSection data).fst ++ (pcSection data).fst
        ++ [Line.blank] ++ (vfSection data).fst ++ (diagSection data).fst, 0) := by
  unfold runParsed
  rw [reportOutput_wf h]

lemma headerLines_no_verdict (path : String) (l : Line)
    (h : l ∈ headerLines path) : diagVerdict l = false := by
  simp [headerLines] at h
  rcases h with he | he | he | he | he <;> subst he <;> rfl

lemma mem_runParsed_iff {data : J} (h : wfDoc data = true) (path : String) (x : Line) :
    x ∈ (runParsed path data).fst ↔
      x ∈ headerLines path ∨ x ∈ (versionSection data).fst ∨ x ∈ (pcSection data).fst
        ∨ x = Line.blank ∨ x ∈ (vfSection data).fst ∨ x ∈ (diagSection data).fst := by
  rw [runParsed_wf h]
  simp only [List.mem_append, List.mem_singleton]
  tauto

lemma mem_runParsed_verdict {data : J} (h : wfDoc data = true) (path : String) (x : Line)
    (hx : diagVerdict x = true) :
    (x ∈ (runParsed path data).fst ↔ x ∈ (diagSection data).fst) := by
  rw [mem_runParsed_iff h]
  constructor
  · rintro (he | he | he | he | he | he)
    · exact absurd hx (by simp [headerLines_no_verdict path x he])
    · exact absurd hx (by simp [versionSection_no_verdict data x he])
    · exact absurd hx (by simp [pcSection_no_verdict data x he])
    · subst he; exact absurd hx (by simp [diagVerdict])
    · exact absurd hx (by simp [vfSection_no_verdict data x he])
    · exact he
  · intro he
    exact Or.inr (Or.inr (Or.inr (Or.inr (Or.inr he))))

lemma mem_runParsed_success {data : J} (h : wfDoc data = true) (path : String) :
    (Line.success ∈ (runParsed path data).fst ↔ hasValidOffsets data = .ok true) := by
  rw [mem_runParsed_verdict h path Line.success rfl, mem_diag_success]

lemma mem_runParsed_failure {data : J} (h : wfDoc data = true) (path : String) :
    (Line.failure ∈ (runParsed path data).fst ↔ hasValidOffsets data = .ok false) := by
  rw [mem_runParsed_verdict h path Line.failure rfl, mem_diag_failure]

lemma hasValid_iff_exists {kvs : List (String × J)} (h : wfDoc (J.obj kvs) = true) :
    hasValidOffsets (J.obj kvs) = .ok true ↔
      ∃ mods, pyGet "mod_func2pc" (J.obj kvs) = .ok (J.obj mods) ∧
        ∃ m fs, (m, J.obj fs) ∈ mods ∧ ∃ f o, (f, o) ∈ fs ∧ inInvalidList o = false := by
  cases hk : (kvs.any fun p => p.fst == "mod_func2pc") with
  | false =>
      have hv : hasValidOffsets (J.obj kvs) = .ok false := by
        simp only [hasValidOffsets, pyInKey, hk]
      rw [hv]
      constructor
      · intro he; exact absurd he (by simp)
      · rintro ⟨mods, hg, -⟩
        have hf : kvs.find? (fun p => p.fst == "mod_func2pc") = none := by
          cases hf2 : kvs.find? (fun p => p.fst == "mod_func2pc") with
          | none => rfl
          | some p => rw [findKey_any hf2] at hk; exact absurd hk (by simp)
        rw [pyGet, hf] at hg
        exact absurd hg (by simp)
  | true =>
      obtain ⟨p, hp⟩ := anyKey_find hk
      obtain ⟨mods, hm, hall⟩ := wfDoc_pc h p hp
      have hget : pyGet "mod_func2pc" (J.obj kvs) = .ok (J.obj mods) := by
        simp only [pyGet, hp, hm]
      have hv : hasValidOffsets (J.obj kvs) =
          .ok (mods.any fun p => match p.snd with
            | J.obj fs => fs.any fun q => !inInvalidList q.snd
            | _ => false) := by
        simp only [hasValidOffsets, pyInKey, pyGet, hk, hp, hm, pyItems]
        rw [diagScan_eq mods hall false]
        simp
      rw [hv]
      constructor
      · intro he
        have hany := Except.ok.injEq .. ▸ he
        have hany2 : (mods.any fun p => match p.snd with
            | J.obj fs => fs.any fun q => !inInvalidList q.snd
            | _ => false) = true := by
          exact Except.ok.inj he
        obtain ⟨q, hq, hqt⟩ := List.any_eq_true.mp hany2
        obtain ⟨fs, hfs⟩ := hall q hq
        rw [hfs] at hqt
        simp only at hqt
        obtain ⟨r, hr, hrt⟩ := List.any_eq_true.mp hqt
        refine ⟨mods, hget, q.fst, fs, ?_, r.fst, r.snd, ?_, by simpa using hrt⟩
        · have : (q.fst, q.snd) ∈ mods := by simpa using hq
          rw [hfs] at this
          exact this
        · simpa using hr
      · rintro ⟨mods2, hg2, m, fs, hmfs, f, o, hfo, ho⟩
        have hmeq : mods2 = mods := by
          rw [hget] at hg2
          have h3 := Except.ok.inj hg2
          injection h3 with h4
          exact h4.symm
        rw [hmeq] at hmfs
        have hx : (mods.any fun p => match p.snd with
            | J.obj fs => fs.any fun q => !inInvalidList q.snd
            | _ => false) = true := by
          refine List.any_eq_true.mpr ⟨(m, J.obj fs), hmfs, ?_⟩
          simp only
          exact List.any_eq_true.mpr ⟨(f, o), hfo, by simpa using ho⟩
        rw [hx]

lemma singleModuleDoc_wf (mod : String) (funcs : List (String × J)) :
    wfDoc (singleModuleDoc mod funcs) = true := rfl

lemma countP_not_add (l : List (String × J)) (p : (String × J) → Bool) :
    l.countP (fun x => !p x) + l.countP p = l.length := by
  induction l with
  | nil => simp
  | cons hd tl ih =>
      by_cases hp : p hd = true
      · rw [List.countP_cons_of_pos _ _ hp, List.countP_cons_of_neg _ _ (by simp [hp])]
        simp only [List.length_cons]
        omega
      · rw [List.countP_cons_of_neg _ _ hp, List.countP_cons_of_pos _ _ (by simp [hp])]
        simp only [List.length_cons]
        omega

lemma filter_isValidLine_ite {c : Prop} [Decidable c] {a : Line}
    (h : isValidLine a = false) :
    List.filter isValidLine (if c then [a] else []) = [] := by
  split <;> simp [h]

/-- C1: for every successfully loaded well-formed report document, the
final diagnosis prints the success notice if and only if `mod_func2pc`
is present and some module in it has some function whose offset lies
outside the invalid list of line 84 (`"0x0"`, `0`, `"0"`, `""`, under
Python equality, encoded by `inInvalidList`); otherwise it prints the
failure diagnosis. -/
theorem C1_diagnosis_success_iff (path : String) (data : J) (hwf : wfDoc data = true) :
    (Line.success ∈ (runParsed path data).fst ↔
      (∃ mods, pyGet "mod_func2pc" data = Except.ok (J.obj mods) ∧
        ∃ m fs, (m, J.obj fs) ∈ mods ∧ ∃ f o, (f, o) ∈ fs ∧ inInvalidList o = false)) ∧
    (Line.failure ∈ (runParsed path data).fst ↔
      ¬(∃ mods, pyGet "mod_func2pc" data = Except.ok (J.obj mods) ∧
        ∃ m fs, (m, J.obj fs) ∈ mods ∧ ∃ f o, (f, o) ∈ fs ∧ inInvalidList o = false)) := by
  obtain ⟨kvs, rfl⟩ := wfDoc_obj hwf
  obtain ⟨b, hb⟩ := hasValidOffsets_wf hwf
  constructor
  · rw [mem_runParsed_success hwf path]
    exact hasValid_iff_exists hwf
  · rw [mem_runParsed_failure hwf path]
    rw [← hasValid_iff_exists hwf]
    cases b
    · simp [hb]
    · simp [hb]

/-- Witness for C1 at a document with a single valid offset: the
success notice is printed. -/
theorem C1_witness :
    Line.success ∈ (runParsed "dwarf.json"
      (J.obj [("mod_func2pc", J.obj [("m", J.obj [("f", J.str "0x10")])])])).fst :=
  ((C1_diagnosis_success_iff "dwarf.json"
      (J.obj [("mod_func2pc", J.obj [("m", J.obj [("f", J.str "0x10")])])])
      (by decide)).left).mpr
    ⟨[("m", J.obj [("f", J.str "0x10")])], rfl,
      "m", [("f", J.str "0x10")], by decide, "f", J.str "0x10", by decide, by decide⟩

/-- C2 counterexample: the document `5` is valid JSON and parses, yet
the script raises a `TypeError` at `'version' in data`, never reaches
the diagnosis section, and the process exits with status 1, not 0. -/
theorem C2_counterexample :
    (script ["dwarf.json"] fun _ => LoadResult.ok (J.num 5)).snd = 1 ∧
    Line.diagnosisTitle ∉ (script ["dwarf.json"] fun _ => LoadResult.ok (J.num 5)).fst := by
  decide

/-- C2 as amended: for every input that loads and parses successfully
into a well-formed report document (a string-keyed mapping whose
`mod_func2pc` value, if present, is a mapping of mappings, and whose
`mod_func2vf` value, if present, is a mapping of sized values), the
script reaches and prints its diagnosis section and exits 0. -/
theorem C2_amended_report_complete (path : String) (args : List String) (data : J)
    (load : String → LoadResult) (hload : load path = LoadResult.ok data)
    (hwf : wfDoc data = true) :
    (script (path :: args) load).snd = 0 ∧
    Line.diagnosisTitle ∈ (script (path :: args) load).fst := by
  have hs : script (path :: args) load = runParsed path data := by
    simp only [script, hload]
  rw [hs]
  constructor
  · rw [runParsed_wf hwf]
  · rw [mem_runParsed_iff hwf]
    exact Or.inr (Or.inr (Or.inr (Or.inr (Or.inr (mem_diag_title data)))))

/-- Witness for the amended C2 at a well-formed document. -/
theorem C2_witness :
    (script ["d.json"] fun _ => LoadResult.ok
      (J.obj [("mod_func2pc", J.obj [("m", J.obj [("f", J.str "0x2")])])])).snd = 0 ∧
    Line.diagnosisTitle ∈ (script ["d.json"] fun _ => LoadResult.ok
      (J.obj [("mod_func2pc", J.obj [("m", J.obj [("f", J.str "0x2")])])])).fst :=
  C2_amended_report_complete "d.json" [] _ _ rfl (by decide)

/-- C8 counterexample to the clause that the load step is the only
fatal condition after argument checking: a document whose
`mod_func2pc` value is the number 5 loads successfully and the report
starts (the offsets header is printed), but `.items()` raises an
`AttributeError` and the process terminates with status 1. -/
theorem C8_counterexample :
    (script ["dwarf.json"] fun _ => LoadResult.ok (J.obj [("mod_func2pc", J.num 5)])).snd = 1 ∧
    Line.pcHeader ∈ (script ["dwarf.json"] fun _ =>
      LoadResult.ok (J.obj [("mod_func2pc", J.num 5)])).fst := by
  decide

/-- C8 as amended: when the load step fails, the script prints an error
line carrying the underlying failure description and exits with status
1 before any report section, and after a successful load of a
well-formed report document no further condition is fatal (the exit
status is 0); ill-shaped parsed data, however, can also terminate the
run fatally. -/
theorem C8_load_failure (path : String) (args : List String) (load : String → LoadResult) :
    (∀ msg, load path = LoadResult.err msg →
      script (path :: args) load = ([Line.loadError msg], 1)) ∧
    (∀ data, load path = LoadResult.ok data → wfDoc data = true →
      (script (path :: args) load).snd = 0) := by
  constructor
  · intro msg hmsg
    simp only [script, hmsg]
  · intro data hdata hwf
    have hs : script (path :: args) load = runParsed path data := by
      simp only [script, hdata]
    rw [hs, runParsed_wf hwf]

/-- Witness for C8 at a failing load. -/
theorem C8_witness :
    script ["missing.json"] (fun _ => LoadResult.err "No such file or directory")
      = ([Line.loadError "No such file or directory"], 1) :=
  (C8_load_failure "missing.json" []
      (fun _ => LoadResult.err "No such file or directory")).left
    "No such file or directory" rfl

/-- C3: in the per-module listing loop, a function is printed with the
invalid marker (and counted in the invalid count) if and only if its
offset satisfies the line-45 check `offset == "0x0" or offset == 0 or
offset == "0"` (encoded by `isZeroLiteral`); all remaining functions
are counted as valid, and the empty string is not caught by that
check, hence classified valid. -/
theorem C3_listing_classification (funcs : List (String × J)) (name : String) (off : J)
    (h : (name, off) ∈ funcs) :
    (Line.invalidEntry name off ∈ (offsetLoop funcs 0 0).fst ↔ isZeroLiteral off = true) ∧
    (offsetLoop funcs 0 0).snd.snd = funcs.countP (fun p => isZeroLiteral p.snd) ∧
    (offsetLoop funcs 0 0).snd.fst = funcs.countP (fun p => !isZeroLiteral p.snd) ∧
    isZeroLiteral (J.str "") = false := by
  refine ⟨⟨?_, fun hz => offsetLoop_invalid_mem funcs 0 0 name off h hz⟩, ?_, ?_, rfl⟩
  · intro hm
    rcases offsetLoop_mem funcs 0 0 _ hm with ⟨n, o, he, hm2, ho⟩ | ⟨n, o, he, hm2, ho⟩
    · injection he with h1 h2
      rw [h2]
      exact ho
    · exact Line.noConfusion he
  · rw [offsetLoop_counts]
    simp
  · rw [offsetLoop_counts]
    simp

/-- Witness for C3: a zero offset is marked invalid, an empty-string
offset is not. -/
theorem C3_witness :
    (Line.invalidEntry "g" (J.str "0x0") ∈
        (offsetLoop [("f", J.str ""), ("g", J.str "0x0")] 0 0).fst ↔
      isZeroLiteral (J.str "0x0") = true) ∧
    (offsetLoop [("f", J.str ""), ("g", J.str "0x0")] 0 0).snd.snd =
      List.countP (fun p => isZeroLiteral p.snd) [("f", J.str ""), ("g", J.str "0x0")] ∧
    (offsetLoop [("f", J.str ""), ("g", J.str "0x0")] 0 0).snd.fst =
      List.countP (fun p => !isZeroLiteral p.snd) [("f", J.str ""), ("g", J.str "0x0")] ∧
    isZeroLiteral (J.str "") = false :=
  C3_listing_classification [("f", J.str ""), ("g", J.str "0x0")] "g" (J.str "0x0") (by decide)

/-- C4: an empty-string offset is not caught by the listing check of
line 45 (so it is counted valid in the per-module summary) but is in
the invalid list of the diagnosis at line 84; in particular, a document
whose only offsets are empty strings prints a per-module summary with a
positive valid count and still the failure diagnosis. -/
theorem C4_empty_string_asymmetry (path mod : String) (funcs : List (String × J))
    (hne : funcs ≠ []) (hall : ∀ p ∈ funcs, p.snd = J.str "") :
    isZeroLiteral (J.str "") = false ∧
    inInvalidList (J.str "") = true ∧
    (offsetLoop funcs 0 0).snd.fst = funcs.length ∧
    0 < (offsetLoop funcs 0 0).snd.fst ∧
    Line.summary funcs.length 0 ∈ (runParsed path (singleModuleDoc mod funcs)).fst ∧
    Line.failure ∈ (runParsed path (singleModuleDoc mod funcs)).fst := by
  have hwf := singleModuleDoc_wf mod funcs
  have hvc : (offsetLoop funcs 0 0).snd.fst = funcs.length := by
    rw [offsetLoop_counts]
    simp only [Nat.zero_add]
    exact List.countP_eq_length.mpr fun p hp => by simp [hall p hp, isZeroLiteral]
  have hzc : (offsetLoop funcs 0 0).snd.snd = 0 := by
    rw [offsetLoop_counts]
    simp only [Nat.zero_add]
    exact List.countP_eq_zero.mpr fun p hp => by simp [hall p hp, isZeroLiteral]
  refine ⟨rfl, rfl, hvc, by rw [hvc]; exact List.length_pos.mpr hne, ?_, ?_⟩
  · rw [mem_runParsed_iff hwf]
    right; right; left
    have h1 : pcSection (singleModuleDoc mod funcs)
        = pseq ([Line.pcHeader], none)
            (pseq (pcOneModule mod (J.obj funcs)) (pcModules [])) := rfl
    rw [h1, mem_pseq, mem_pseq]
    right
    refine ⟨rfl, Or.inl ?_⟩
    rw [pcOneModule_ne mod funcs hne]
    simp only [List.mem_cons, List.mem_append]
    rw [hvc, hzc]
    simp
  · rw [mem_runParsed_failure hwf path]
    have hv : hasValidOffsets (singleModuleDoc mod funcs)
        = .ok (false || funcs.any fun q => !inInvalidList q.snd) := rfl
    rw [hv]
    have hany : (funcs.any fun q => !inInvalidList q.snd) = false :=
      List.any_eq_false.mpr fun q hq => by simp [hall q hq, inInvalidList]
    rw [hany]
    rfl

/-- Witness for C4 at a single-function module whose offset is the
empty string. -/
theorem C4_witness :
    isZeroLiteral (J.str "") = false ∧
    inInvalidList (J.str "") = true ∧
    (offsetLoop [("f", J.str "")] 0 0).snd.fst = [("f", J.str "")].length ∧
    0 < (offsetLoop [("f", J.str "")] 0 0).snd.fst ∧
    Line.summary [("f", J.str "")].length 0 ∈
      (runParsed "d.json" (singleModuleDoc "m" [("f", J.str "")])).fst ∧
    Line.failure ∈ (runParsed "d.json" (singleModuleDoc "m" [("f", J.str "")])).fst :=
  C4_empty_string_asymmetry "d.json" "m" [("f", J.str "")] (by decide)
    (fun p hp => by simpa using congrArg Prod.snd (by simpa using hp))

/-- C6: a module whose function mapping is empty yields exactly the
module line and the no-functions warning (no classification lines, no
summary, no zero-offset warning), and a document whose only module is
empty produces the failure diagnosis and exit status 0. -/
theorem C6_empty_module (path mod : String) :
    pcOneModule mod (J.obj []) = ([Line.moduleLine mod, Line.noFunctionsFound], none) ∧
    Line.failure ∈ (runParsed path (singleModuleDoc mod [])).fst ∧
    (runParsed path (singleModuleDoc mod [])).snd = 0 ∧
    Line.success ∉ (runParsed path (singleModuleDoc mod [])).fst := by
  have hwf := singleModuleDoc_wf mod []
  have hv : hasValidOffsets (singleModuleDoc mod []) = .ok false := rfl
  refine ⟨rfl, (mem_runParsed_failure hwf path).mpr hv, ?_, ?_⟩
  · rw [runParsed_wf hwf]
  · intro hs
    rw [mem_runParsed_success hwf path, hv] at hs
    exact absurd hs (by simp)

/-- C7: a well-formed document lacking `mod_func2pc` produces the
missing-key warning and the failure diagnosis, never the success
notice. -/
theorem C7_missing_pc (path : String) (data : J) (hwf : wfDoc data = true)
    (habs : pyInKey "mod_func2pc" data = Except.ok false) :
    Line.noPcWarning ∈ (runParsed path data).fst ∧
    Line.failure ∈ (runParsed path data).fst ∧
    Line.success ∉ (runParsed path data).fst := by
  have hv : hasValidOffsets data = .ok false := by
    simp only [hasValidOffsets, habs]
  have hpc : (pcSection data).fst = [Line.noPcWarning] := by
    simp only [pcSection, habs]
  refine ⟨?_, (mem_runParsed_failure hwf path).mpr hv, ?_⟩
  · rw [mem_runParsed_iff hwf]
    right; right; left
    rw [hpc]
    simp
  · intro hs
    rw [mem_runParsed_success hwf path, hv] at hs
    exact absurd hs (by simp)

/-- Witness for C7 at the empty document. -/
theorem C7_witness :
    Line.noPcWarning ∈ (runParsed "d.json" (J.obj [])).fst ∧
    Line.failure ∈ (runParsed "d.json" (J.obj [])).fst ∧
    Line.success ∉ (runParsed "d.json" (J.obj [])).fst :=
  C7_missing_pc "d.json" (J.obj []) (by decide) rfl

lemma mem_ite_singleton_iff {c : Prop} [Decidable c] {l a : Line} :
    l ∈ (if c then [a] else []) ↔ c ∧ l = a := by
  split <;> simp_all

/-- C5: in one module's report, the individually printed valid entries
are exactly the first five valid-offset functions in document key
order, and the suppressed-count line appears exactly when there are
more than five valid entries, reporting their number minus five. -/
theorem C5_valid_cap (mod : String) (fs : List (String × J)) :
    (pcOneModule mod (J.obj fs)).fst.filter isValidLine =
      ((fs.filter fun p => !isZeroLiteral p.snd).take 5).map
        (fun p => Line.validEntry p.fst p.snd) ∧
    (∀ n, Line.moreValid n ∈ (pcOneModule mod (J.obj fs)).fst ↔
      (5 < (fs.filter fun p => !isZeroLiteral p.snd).length ∧
        n = (fs.filter fun p => !isZeroLiteral p.snd).length - 5)) := by
  rcases eq_or_ne fs [] with rfl | hne
  · refine ⟨rfl, fun n => ?_⟩
    constructor
    · intro h
      have h2 : Line.moreValid n ∈ [Line.moduleLine mod, Line.noFunctionsFound] := h
      simp at h2
    · rintro ⟨h5, -⟩
      simp at h5
  · have hvc : (offsetLoop fs 0 0).snd.fst
        = (fs.filter fun p => !isZeroLiteral p.snd).length := by
      rw [offsetLoop_counts]
      simp [List.countP_eq_length_filter]
    have hfst : (pcOneModule mod (J.obj fs)).fst
        = Line.moduleLine mod :: (offsetLoop fs 0 0).fst
          ++ (if 5 < (offsetLoop fs 0 0).snd.fst
              then [Line.moreValid ((offsetLoop fs 0 0).snd.fst - 5)] else [])
          ++ [Line.summary (offsetLoop fs 0 0).snd.fst (offsetLoop fs 0 0).snd.snd]
          ++ (if 0 < (offsetLoop fs 0 0).snd.snd then [Line.zeroWarning] else []) := by
      rw [pcOneModule_ne mod fs hne]
    constructor
    · rw [hfst]
      rw [List.filter_append, List.filter_append]
      rw [List.filter_cons_of_neg (by simp [isValidLine])]
      rw [List.filter_append]
      rw [List.filter_cons_of_neg (by simp [isValidLine])]
      rw [offsetLoop_filter_valid fs 0 0]
      rw [filter_isValidLine_ite (a := Line.moreValid ((offsetLoop fs 0 0).snd.fst - 5)) rfl]
      rw [filter_isValidLine_ite (a := Line.zeroWarning) rfl]
      simp
    · intro n
      constructor
      · intro h
        rw [hfst] at h
        rcases List.mem_cons.mp h with he | he
        · exact absurd he (by simp)
        rcases List.mem_append.mp he with he | he
        swap
        · exact absurd (mem_ite_singleton he) (by simp)
        rcases List.mem_append.mp he with he | he
        swap
        · simp at he
        rcases List.mem_append.mp he with he | he
        · rcases offsetLoop_mem fs 0 0 _ he with ⟨a, o, he2, -, -⟩ | ⟨a, o, he2, -, -⟩ <;>
            exact Line.noConfusion he2
        · rw [mem_ite_singleton_iff] at he
          obtain ⟨h5, heq⟩ := he
          injection heq with h4
          exact ⟨hvc ▸ h5, by rw [h4, hvc]⟩
      · rintro ⟨h5, rfl⟩
        rw [hfst]
        apply List.mem_cons_of_mem
        apply List.mem_append_left
        apply List.mem_append_left
        apply List.mem_append_right
        rw [mem_ite_singleton_iff]
        exact ⟨by rw [hvc]; exact h5, by rw [hvc]⟩

/-- C9: for a non-empty module, the summary line is printed with a
valid count and an invalid count that add up to the number of
functions in the module, and any printed summary line carries exactly
those counts. -/
theorem C9_summary_partition (mod : String) (fs : List (String × J)) (hne : fs ≠ []) :
    (∃ vc zc, Line.summary vc zc ∈ (pcOneModule mod (J.obj fs)).fst ∧ vc + zc = fs.length) ∧
    (∀ vc zc, Line.summary vc zc ∈ (pcOneModule mod (J.obj fs)).fst → vc + zc = fs.length) := by
  rw [pcOneModule_ne mod fs hne]
  have hsum : (offsetLoop fs 0 0).snd.fst + (offsetLoop fs 0 0).snd.snd = fs.length := by
    rw [offsetLoop_counts]
    simp only [Nat.zero_add]
    exact countP_not_add fs _
  constructor
  · refine ⟨(offsetLoop fs 0 0).snd.fst, (offsetLoop fs 0 0).snd.snd, ?_, hsum⟩
    apply List.mem_cons_of_mem
    apply List.mem_append_left
    apply List.mem_append_right
    simp
  · intro vc zc h
    rcases List.mem_cons.mp h with he | he
    · exact absurd he (by simp)
    rcases List.mem_append.mp he with he | he
    swap
    · exact absurd (mem_ite_singleton he) (by simp)
    rcases List.mem_append.mp he with he | he
    swap
    · simp at he
      obtain ⟨hh1, hh2⟩ := he
      rw [hh1, hh2]
      exact hsum
    rcases List.mem_append.mp he with he | he
    · rcases offsetLoop_mem fs 0 0 _ he with ⟨a, o, he2, -, -⟩ | ⟨a, o, he2, -, -⟩ <;>
        exact Line.noConfusion he2
    · exact absurd (mem_ite_singleton he) (by simp)

/-- Witness for C9 at a one-function module. -/
theorem C9_witness :
    (∃ vc zc, Line.summary vc zc ∈ (pcOneModule "m" (J.obj [("f", J.num 3)])).fst ∧
      vc + zc = [("f", J.num 3)].length) ∧
    (∀ vc zc, Line.summary vc zc ∈ (pcOneModule "m" (J.obj [("f", J.num 3)])).fst →
      vc + zc = [("f", J.num 3)].length) :=
  C9_summary_partition "m" [("f", J.num 3)] (by decide)

/-- C10: the offset checks of lines 45 and 84 compare literals, not
numeric values: any string denoting numeric zero other than the exact
literals is classified valid in the listing, counts as a valid offset
in the diagnosis, and makes the diagnosis report success. -/
theorem C10_literal_comparison (path mod fname : String) (s : String)
    (hz : denotesNumericZero s = true) (h1 : s ≠ "0x0") (h2 : s ≠ "0") :
    isZeroLiteral (J.str s) = false ∧
    inInvalidList (J.str s) = false ∧
    Line.validEntry fname (J.str s) ∈
      (runParsed path (singleModuleDoc mod [(fname, J.str s)])).fst ∧
    Line.success ∈ (runParsed path (singleModuleDoc mod [(fname, J.str s)])).fst := by
  have hne2 : s ≠ "" := by
    intro he
    subst he
    exact absurd hz (by decide)
  have hb1 : (s == "0x0") = false := beq_eq_false_iff_ne.mpr h1
  have hb2 : (s == "0") = false := beq_eq_false_iff_ne.mpr h2
  have hb3 : (s == "") = false := beq_eq_false_iff_ne.mpr hne2
  have hzl : isZeroLiteral (J.str s) = false := by
    show (s == "0x0" || s == "0") = false
    rw [hb1, hb2]
    rfl
  have hinv : inInvalidList (J.str s) = false := by
    show (s == "0x0" || s == "0" || s == "") = false
    rw [hb1, hb2, hb3]
    rfl
  have hwf := singleModuleDoc_wf mod [(fname, J.str s)]
  refine ⟨hzl, hinv, ?_, ?_⟩
  · rw [mem_runParsed_iff hwf]
    right; right; left
    have hx : pcSection (singleModuleDoc mod [(fname, J.str s)])
        = pseq ([Line.pcHeader], none)
            (pseq (pcOneModule mod (J.obj [(fname, J.str s)])) (pcModules [])) := rfl
    rw [hx, mem_pseq, mem_pseq]
    right
    refine ⟨rfl, Or.inl ?_⟩
    rw [pcOneModule_ne mod _ (by simp)]
    have hloop : (offsetLoop [(fname, J.str s)] 0 0).fst
        = [Line.validEntry fname (J.str s)] := by
      simp [offsetLoop, hzl]
    simp [hloop]
  · rw [mem_runParsed_success hwf path]
    have hv : hasValidOffsets (singleModuleDoc mod [(fname, J.str s)])
        = .ok (false || (!inInvalidList (J.str s) || false)) := rfl
    rw [hv, hinv]
    rfl

/-- Witness for C10 at the string zero literal with an extra digit. -/
theorem C10_witness :
    isZeroLiteral (J.str "0x00") = false ∧
    inInvalidList (J.str "0x00") = false ∧
    Line.validEntry "f" (J.str "0x00") ∈
      (runParsed "d.json" (singleModuleDoc "m" [("f", J.str "0x00")])).fst ∧
    Line.success ∈ (runParsed "d.json" (singleModuleDoc "m" [("f", J.str "0x00")])).fst :=
  C10_literal_comparison "d.json" "m" "f" "0x00" (by decide) (by decide) (by decide)
